import Mathlib

/-!
Verification development for a todo-list application consisting of a
persisted reactive store (the `useLocalStorage` hook) and an ordered
item list (the `TodoList` component with `addTodo`, `toggleTodo`,
`deleteTodo` and `handleDragEnd` built on dnd-kit's `arrayMove`).

The definitions below are a shallow embedding of the TypeScript source:
JavaScript runtime values relevant to JSON round-tripping are modelled by
`JVal`, the hook's two effects by an explicit state machine on `Sys`, and
the component's handlers by pure functions on `List Todo`.
-/

namespace TodoApp

/-- JavaScript runtime values as far as JSON serialization is concerned.
`date` is a `Date` object carrying epoch milliseconds. -/
inductive JVal where
  | null : JVal
  | bool (b : Bool) : JVal
  | num (n : Int) : JVal
  | str (s : String) : JVal
  | date (millis : Nat) : JVal
  | arr (xs : List JVal) : JVal
  | obj (fields : List (String × JVal)) : JVal

/-- Left-pad a decimal rendering to two digits, as `toISOString` does. -/
def pad2 (n : Nat) : String :=
  if n < 10 then "0" ++ toString n else toString n

/-- Left-pad a decimal rendering to three digits. -/
def pad3 (n : Nat) : String :=
  if n < 10 then "00" ++ toString n
  else if n < 100 then "0" ++ toString n
  else toString n

/-- Left-pad a decimal rendering to four digits. -/
def pad4 (n : Nat) : String :=
  if n < 10 then "000" ++ toString n
  else if n < 100 then "00" ++ toString n
  else if n < 1000 then "0" ++ toString n
  else toString n

/-- Gregorian calendar date (year, month, day) from a count of days since
1970-01-01, following the standard civil-from-days algorithm used by date
libraries; valid for the AD range relevant to `Date`. -/
def civilFromDays (z0 : Nat) : Nat × Nat × Nat :=
  let z := z0 + 719468
  let era := z / 146097
  let doe := z % 146097
  let yoe := (doe - doe / 1460 + doe / 36524 - doe / 146096) / 365
  let y := yoe + era * 400
  let doy := doe - (365 * yoe + yoe / 4 - yoe / 100)
  let mp := (5 * doy + 2) / 153
  let d := doy - (153 * mp + 2) / 5 + 1
  let m := if mp < 10 then mp + 3 else mp - 9
  (if m ≤ 2 then y + 1 else y, m, d)

/-- Model of `Date.prototype.toISOString` for non-negative epoch
milliseconds: the `YYYY-MM-DDTHH:MM:SS.mmmZ` rendering used by
`JSON.stringify` when it serializes a `Date`. -/
def isoOfMillis (t : Nat) : String :=
  let ms := t % 1000
  let sec := (t / 1000) % 60
  let mi := (t / 60000) % 60
  let h := (t / 3600000) % 24
  let ymd := civilFromDays (t / 86400000)
  pad4 ymd.1 ++ "-" ++ pad2 ymd.2.1 ++ "-" ++ pad2 ymd.2.2 ++ "T" ++
    pad2 h ++ ":" ++ pad2 mi ++ ":" ++ pad2 sec ++ "." ++ pad3 ms ++ "Z"

mutual
/-- The composite `JSON.parse(JSON.stringify(v))` as a transformation on
runtime values: a `Date` is serialized through its `toJSON`
(i.e. `toISOString`) and parsed back as a plain string, every other value
is reproduced structurally. -/
def jsonRoundTrip : JVal → JVal
  | .null => .null
  | .bool b => .bool b
  | .num n => .num n
  | .str s => .str s
  | .date m => .str (isoOfMillis m)
  | .arr xs => .arr (jsonRoundTripList xs)
  | .obj fs => .obj (jsonRoundTripFields fs)

/-- The map of `jsonRoundTrip` over the elements of a JSON array. -/
def jsonRoundTripList : List JVal → List JVal
  | [] => []
  | x :: xs => jsonRoundTrip x :: jsonRoundTripList xs

/-- The map of `jsonRoundTrip` over the fields of a JSON object. -/
def jsonRoundTripFields : List (String × JVal) → List (String × JVal)
  | [] => []
  | (k, v) :: fs => (k, jsonRoundTrip v) :: jsonRoundTripFields fs
end

/-- Runtime representation of a todo's `createdAt` field: a `Date` object
when the record was created in memory (`new Date()` in `addTodo`), a
string after the record has been through `JSON.stringify`/`JSON.parse`
(JSON parsing performs no `Date` revival). -/
inductive CreatedAt where
  | date (millis : Nat) : CreatedAt
  | str (s : String) : CreatedAt
deriving DecidableEq

/-- The `Todo` record from `lib/types`: id, text, completed, createdAt. -/
structure Todo where
  id : String
  text : String
  completed : Bool
  createdAt : CreatedAt
deriving DecidableEq

/-- The JSON value a `Todo` record occupies in memory. -/
def encodeTodo (t : Todo) : JVal :=
  .obj [("id", .str t.id), ("text", .str t.text),
        ("completed", .bool t.completed),
        ("createdAt", match t.createdAt with
          | .date m => .date m
          | .str s => .str s)]

/-- The JSON value the in-memory todos array occupies. -/
def encodeTodos (l : List Todo) : JVal :=
  .arr (l.map encodeTodo)

/-- The record a `Todo` becomes after one serialize/parse cycle: identical
except that a `Date`-valued `createdAt` comes back as its ISO-8601 string
rendering. -/
def isoTodo (t : Todo) : Todo :=
  { t with createdAt := match t.createdAt with
      | .date m => .str (isoOfMillis m)
      | .str s => .str s }

/-- The argument accepted by a store handle's `set`: either a literal new
value or an updater function of the previous value (React's
`setState` forms). -/
inductive SetArg (T : Type) where
  | literal (v : T) : SetArg T
  | updater (f : T → T) : SetArg T

/-- The value a `set(arg)` call resolves to, given the current in-memory
value: a literal replaces it, an updater is applied to it. -/
def applySet {T : Type} (current : T) : SetArg T → T
  | .literal v => v
  | .updater f => f current

/-! ### Ordered item list operations (`TodoList.tsx`) -/

/-- Model of JavaScript `String.prototype.trim`: strip whitespace
characters from both ends of the string. -/
def trimJS (s : String) : String :=
  String.mk
    (((s.data.dropWhile Char.isWhitespace).reverse.dropWhile
      Char.isWhitespace).reverse)

/-- Handler `addTodo` from `TodoList.tsx` as a list transformation: reject
blank-after-trim input, otherwise append a fresh record with the trimmed
text, `completed = false`, and `createdAt = new Date()` (here: the fresh
id and the current time are passed explicitly). -/
def addTodo (todos : List Todo) (text fid : String) (now : Nat) : List Todo :=
  if trimJS text = "" then todos
  else todos ++ [⟨fid, trimJS text, false, .date now⟩]

/-- The `set` argument `addTodo` actually passes: `none` when the trimmed
text is empty (no `setTodos` call at all), otherwise a literal built by
spreading the component's render snapshot — not an updater. -/
def addTodoArg (snapshot : List Todo) (text fid : String) (now : Nat) :
    Option (SetArg (List Todo)) :=
  if trimJS text = "" then none
  else some (.literal (snapshot ++ [⟨fid, trimJS text, false, .date now⟩]))

/-- Handler `toggleTodo` from `TodoList.tsx`: map over the list, flipping
`completed` on the record whose id matches. -/
def toggleTodo (todos : List Todo) (id : String) : List Todo :=
  todos.map fun t => if t.id = id then { t with completed := !t.completed } else t

/-- The `set` argument `toggleTodo` passes: a literal computed from the
render snapshot. -/
def toggleTodoArg (snapshot : List Todo) (id : String) : SetArg (List Todo) :=
  .literal (toggleTodo snapshot id)

/-- Handler `deleteTodo` from `TodoList.tsx`: filter out the record whose id
matches. -/
def deleteTodo (todos : List Todo) (id : String) : List Todo :=
  todos.filter fun t => t.id ≠ id

/-- The `set` argument `deleteTodo` passes: a literal computed from the
render snapshot. -/
def deleteTodoArg (snapshot : List Todo) (id : String) : SetArg (List Todo) :=
  .literal (deleteTodo snapshot id)

/-- Accumulator form of JavaScript `Array.prototype.findIndex`. -/
def findIndexAux {α : Type} (p : α → Bool) : List α → Nat → Int
  | [], _ => -1
  | a :: l, i => if p a then (i : Int) else findIndexAux p l (i + 1)

/-- JavaScript `Array.prototype.findIndex`: index of the first element
satisfying `p`, or `-1` when none does. -/
def findIndexJS {α : Type} (p : α → Bool) (l : List α) : Int :=
  findIndexAux p l 0

/-- The start index JavaScript `Array.prototype.splice` actually uses for
an array of length `len`: negative starts count from the end (clamped at
0), non-negative starts are clamped at `len`. -/
def spliceStart (len : Nat) (start : Int) : Nat :=
  if start < 0 then ((len : Int) + start).toNat else min start.toNat len

/-- Insert `x` at position `i` of `l` (JavaScript `splice(i, 0, x)` for
`0 ≤ i ≤ l.length`). -/
def insertAt {α : Type} (l : List α) (i : Nat) (x : α) : List α :=
  l.take i ++ x :: l.drop i

/-- dnd-kit's `arrayMove`:
`newArray.splice(to < 0 ? newArray.length + to : to, 0, newArray.splice(from, 1)[0])`
on a copy of the array. The insertion position is computed from the
original length before the removal shortens the copy; the removal start
follows JavaScript splice clamping. When the inner splice removes nothing
(out-of-range `from` on an empty array) JavaScript would insert
`undefined`; that branch is unreachable for indices produced by
`findIndex` on a rendered (non-empty) list and is modelled as inserting
nothing. -/
def arrayMove {α : Type} (array : List α) (fromIdx toIdx : Int) : List α :=
  let n := array.length
  let insertRaw : Int := if toIdx < 0 then (n : Int) + toIdx else toIdx
  let rPos := spliceStart n fromIdx
  let rest := array.take rPos ++ array.drop (rPos + 1)
  match array[rPos]? with
  | some x => insertAt rest (spliceStart rest.length insertRaw) x
  | none => rest

/-- Handler `handleDragEnd` from `TodoList.tsx`: given the dragged id and the
drop target (if any), produce the `set` argument passed to the store —
an updater computing `arrayMove` over the indices found in the *current*
items — or nothing when there is no target or the ids coincide. -/
def handleDragEnd (activeId : String) (over : Option String) :
    Option (SetArg (List Todo)) :=
  match over with
  | none => none
  | some overId =>
    if activeId ≠ overId then
      some (.updater fun items =>
        arrayMove items
          (findIndexJS (fun t => t.id == activeId) items)
          (findIndexJS (fun t => t.id == overId) items))
    else none

/-- The effect of one drag-end event on the current list. -/
def applyDrag (items : List Todo) (activeId : String) (over : Option String) :
    List Todo :=
  match handleDragEnd activeId over with
  | none => items
  | some arg => applySet items arg

/-- The list-level `move(sourceId, targetId)` operation: the effect of a
drag-end event whose active id is `sourceId` and whose drop target is
`targetId`. -/
def moveOp (items : List Todo) (sourceId targetId : String) : List Todo :=
  applyDrag items sourceId (some targetId)

/-! ### Persisted reactive store (`useLocalStorage.ts`) -/

/-- Observable state of one `useLocalStorage` instance together with its
backing-store key slot: the in-memory `value`, the `isHydrated` flag, the
string currently stored under the key (`none` = absent), the log of
`localStorage.setItem` calls performed, and the count of `console.warn`
calls. -/
structure Sys (T : Type) where
  value : T
  hydrated : Bool
  stored : Option String
  writes : List String
  warns : Nat

/-- State right after the initial render: `useState(initialValue)` and
`useState(false)`, with whatever the backing store already holds under the
key; no storage access has happened. -/
def mkInit {T : Type} (v0 : T) (preseed : Option String) : Sys T :=
  ⟨v0, false, preseed, [], 0⟩

/-- The hook's second effect (`localStorage.setItem(key, JSON.stringify(value))`
gated on `isHydrated`), with `g` the serializer. It runs whenever one of
its dependencies `[key, value, isHydrated]` has changed. -/
def saveEffect {T : Type} (g : T → String) (st : Sys T) : Sys T :=
  if st.hydrated then
    { st with stored := some (g st.value), writes := st.writes ++ [g st.value] }
  else st

/-- The hook's mount effect followed by the save effect it triggers:
read the key (`readThrows` models `getItem` itself throwing); a missing
or empty string leaves / resets the value to `initialValue`; a non-empty
string is parsed by `p` (a `none` result models `JSON.parse` throwing,
caught and counted as a warning); then `setIsHydrated(true)`, after which
the save effect re-runs because its `isHydrated` dependency changed. -/
def hydrateStep {T : Type} (v0 : T) (p : String → Option T) (g : T → String)
    (readThrows : Bool) (st : Sys T) : Sys T :=
  let st1 :=
    if readThrows then { st with warns := st.warns + 1 }
    else
      match st.stored with
      | none => { st with value := v0 }
      | some s =>
        if s = "" then { st with value := v0 }
        else
          match p s with
          | some v => { st with value := v }
          | none => { st with warns := st.warns + 1 }
  saveEffect g { st1 with hydrated := true }

/-- One `setValue(arg)` call: resolve the argument against the current
value; if the result is identical to the current value React bails out of
the re-render and no effect re-runs, otherwise the value changes and the
save effect re-runs (writing only when hydrated). Identity is `Object.is`,
which coincides with value equality at the primitive types the model is
instantiated with. -/
def setStep {T : Type} [DecidableEq T] (g : T → String) (arg : SetArg T)
    (st : Sys T) : Sys T :=
  let newV := applySet st.value arg
  if newV = st.value then st
  else saveEffect g { st with value := newV }

/-- A sequence of `setValue` calls applied in order. -/
def applySets {T : Type} [DecidableEq T] (g : T → String)
    (args : List (SetArg T)) (st : Sys T) : Sys T :=
  args.foldl (fun s a => setStep g a s) st

/-- States of the todo list reachable by the application itself: start
empty, apply the four handlers (`addTodo` with a freshly generated id that
collides with no existing one, `toggleTodo`, `deleteTodo`, a drag-end
event), or reload the list from the store's own serialization of it
(which, by the round-trip characterization, re-renders each record through
`isoTodo`). -/
inductive Reachable : List Todo → Prop where
  | init : Reachable []
  | add {l text fid now} : Reachable l → (∀ t ∈ l, t.id ≠ fid) →
      Reachable (addTodo l text fid now)
  | tog {l id} : Reachable l → Reachable (toggleTodo l id)
  | del {l id} : Reachable l → Reachable (deleteTodo l id)
  | drag {l a o} : Reachable l → Reachable (applyDrag l a o)
  | rehydrate {l} : Reachable l → Reachable (l.map isoTodo)

/-! ### Concrete sample data used to instantiate the theorems -/

/-- A sample record with id `a`. -/
def sampleA : Todo := ⟨"a", "alpha", false, .date 0⟩

/-- A sample record with id `b`. -/
def sampleB : Todo := ⟨"b", "beta", false, .date 0⟩

/-- A sample record with id `c`. -/
def sampleC : Todo := ⟨"c", "gamma", true, .date 7⟩

/-- A sample serializer for a string-valued store instance. -/
def sampleSer : String → String := fun s => s

/-- A sample deserializer that never succeeds. -/
def sampleParseNone : String → Option String := fun _ => none

/-- A sample deserializer recognising one stored payload. -/
def sampleParseOne : String → Option String :=
  fun s => if s = "stored" then some "forty-two" else none

/-- A string-valued store instance that has completed hydration against an
empty backing store. -/
def hydratedSys : Sys String :=
  hydrateStep "initial" sampleParseNone sampleSer false (mkInit "initial" none)

/-! ### Helper lemmas -/

/-- A `setValue` call on an unhydrated store never touches the backing
store and never hydrates. -/
theorem setStep_unhydrated {T : Type} [DecidableEq T] (g : T → String)
    (a : SetArg T) (st : Sys T) (h : st.hydrated = false) :
    (setStep g a st).hydrated = false ∧ (setStep g a st).writes = st.writes ∧
      (setStep g a st).stored = st.stored := by
  simp only [setStep, saveEffect, h]
  split <;> simp [h]

/-- A whole sequence of `setValue` calls on an unhydrated store never
touches the backing store and never hydrates. -/
theorem applySets_unhydrated {T : Type} [DecidableEq T] (g : T → String)
    (args : List (SetArg T)) :
    ∀ st : Sys T, st.hydrated = false →
      (applySets g args st).hydrated = false ∧
      (applySets g args st).writes = st.writes := by
  induction args with
  | nil => intro st h; exact ⟨h, rfl⟩
  | cons a as ih =>
    intro st h
    have h1 := setStep_unhydrated g a st h
    have h2 := ih (setStep g a st) h1.1
    refine ⟨?_, ?_⟩
    · simpa [applySets] using h2.1
    · have : (applySets g as (setStep g a st)).writes = st.writes :=
        h2.2.trans h1.2.1
      simpa [applySets] using this

/-- Toggling does not change the sequence of ids. -/
theorem toggleTodo_map_id (l : List Todo) (id : String) :
    (toggleTodo l id).map Todo.id = l.map Todo.id := by
  induction l with
  | nil => rfl
  | cons t ts ih =>
    have ht : (if t.id = id then { t with completed := !t.completed } else t).id
        = t.id := by
      by_cases h : t.id = id <;> simp [h]
    simp only [toggleTodo, List.map_cons] at ih ⊢
    rw [ht, ih]

/-- Reloading via `isoTodo` does not change the id. -/
theorem isoTodo_map_id (l : List Todo) :
    (l.map isoTodo).map Todo.id = l.map Todo.id := by
  induction l with
  | nil => rfl
  | cons t ts ih =>
    simp only [List.map_cons]
    rw [ih]
    simp [isoTodo]

/-- A successful `findIndex` result is a position inside the list. -/
theorem findIndexAux_nat_lt {α : Type} (p : α → Bool) :
    ∀ (l : List α) (n i : Nat), findIndexAux p l n = (i : Int) →
      n ≤ i ∧ i < n + l.length := by
  intro l
  induction l with
  | nil =>
    intro n i h
    rw [show findIndexAux p [] n = -1 from rfl] at h
    omega
  | cons a l ih =>
    intro n i h
    by_cases hp : p a
    · rw [show findIndexAux p (a :: l) n = if p a then (n : Int)
          else findIndexAux p l (n + 1) from rfl, if_pos hp] at h
      simp only [List.length_cons]
      omega
    · rw [show findIndexAux p (a :: l) n = if p a then (n : Int)
          else findIndexAux p l (n + 1) from rfl, if_neg hp] at h
      have := ih (n + 1) i h
      simp only [List.length_cons]
      omega

/-- A successful `findIndex` result is a position inside the list. -/
theorem findIndexJS_nat_lt {α : Type} (p : α → Bool) (l : List α) (i : Nat)
    (h : findIndexJS p l = (i : Int)) : i < l.length := by
  have := findIndexAux_nat_lt p l 0 i h
  omega

/-- With two in-range indices, `arrayMove` removes the element at the
source index and re-inserts it at the target index. -/
theorem arrayMove_relocate {α : Type} (l : List α) (i j : Nat) (x : α)
    (hx : l[i]? = some x) (hj : j < l.length) :
    arrayMove l (i : Int) (j : Int) = insertAt (l.take i ++ l.drop (i + 1)) j x := by
  have hi : i < l.length := by
    by_contra hc
    push_neg at hc
    rw [List.getElem?_eq_none hc] at hx
    cases hx
  have hsi : spliceStart l.length (i : Int) = i := by
    simp only [spliceStart]
    rw [if_neg (by omega)]
    simp
    omega
  have hrest : (l.take i ++ l.drop (i + 1)).length = l.length - 1 := by
    simp
    omega
  have hsj : spliceStart (l.take i ++ l.drop (i + 1)).length
      (if (j : Int) < 0 then (l.length : Int) + (j : Int) else (j : Int)) = j := by
    rw [if_neg (by omega)]
    simp only [spliceStart]
    rw [if_neg (by omega), hrest]
    simp
    omega
  simp only [arrayMove, hsi, hx, hsj]

/-- When both indices are `-1` (both ids missing from the list),
`arrayMove` removes the last element and re-inserts it at the end, so the
list is unchanged. -/
theorem arrayMove_both_missing {α : Type} (l : List α) :
    arrayMove l (-1) (-1) = l := by
  cases hl : l.length with
  | zero =>
    have hnil : l = [] := List.length_eq_zero.mp hl
    subst hnil
    rfl
  | succ m =>
    have hm : m < l.length := by omega
    have hx : l[m]? = some l[m] := List.getElem?_eq_getElem hm
    have hsi : spliceStart l.length (-1) = m := by
      simp only [spliceStart]
      rw [if_pos (by omega), hl]
      omega
    have hdm : l.drop m = [l[m]] := by
      rw [List.drop_eq_getElem_cons hm, List.drop_eq_nil_of_le (by omega)]
    have hrest : l.take m ++ l.drop (m + 1) = l.take m := by
      rw [List.drop_eq_nil_of_le (by omega), List.append_nil]
    have hlen : (l.take m ++ l.drop (m + 1)).length = m := by
      rw [hrest, List.length_take]
      omega
    have hsj : spliceStart (l.take m ++ l.drop (m + 1)).length
        (if (-1 : Int) < 0 then (l.length : Int) + (-1) else (-1 : Int)) = m := by
      rw [if_pos (by omega)]
      simp only [spliceStart]
      rw [if_neg (by omega), hlen]
      omega
    have hkey : arrayMove l (-1) (-1)
        = insertAt (l.take m ++ l.drop (m + 1)) m l[m] := by
      simp only [arrayMove, hsi, hx, hsj]
    rw [hkey, hrest, insertAt,
      List.take_of_length_le (by rw [List.length_take]; omega),
      List.drop_eq_nil_of_le (by rw [List.length_take]; omega)]
    rw [show (l[m] :: ([] : List α)) = l.drop m from hdm.symm]
    exact List.take_append_drop m l

/-- Whatever the two indices, `arrayMove` yields a permutation of the list
(element removed and re-inserted) or a sublist of it (nothing removed). -/
theorem arrayMove_perm_or_sublist {α : Type} (l : List α) (a b : Int) :
    List.Perm (arrayMove l a b) l ∨ List.Sublist (arrayMove l a b) l := by
  have hdropsub : ∀ r : Nat, List.Sublist (l.take r ++ l.drop (r + 1)) l := by
    intro r
    have h1 : List.Sublist (l.drop (r + 1)) (l.drop r) := by
      rw [show l.drop (r + 1) = List.drop 1 (l.drop r) from by rw [List.drop_drop]]
      exact List.drop_sublist 1 (l.drop r)
    have h2 := h1.append_left (l.take r)
    rwa [List.take_append_drop r l] at h2
  cases hx : l[spliceStart l.length a]? with
  | none =>
    right
    simp only [arrayMove, hx]
    exact hdropsub _
  | some x =>
    left
    simp only [arrayMove, hx]
    set r := spliceStart l.length a with hr
    have hrlt : r < l.length := by
      by_contra hc
      push_neg at hc
      rw [List.getElem?_eq_none hc] at hx
      cases hx
    have hxval : l[r] = x := by
      have hg := List.getElem?_eq_getElem hrlt
      rw [hg] at hx
      cases hx
      rfl
    have hldec : l = l.take r ++ x :: l.drop (r + 1) := by
      conv_lhs => rw [← List.take_append_drop r l]
      rw [List.drop_eq_getElem_cons hrlt, hxval]
    have h1 : List.Perm (insertAt (l.take r ++ l.drop (r + 1)) (spliceStart
        (l.take r ++ l.drop (r + 1)).length (if b < 0 then (l.length : Int) + b else b)) x)
        (x :: (l.take r ++ l.drop (r + 1))) := by
      unfold insertAt
      refine List.Perm.trans List.perm_middle ?_
      rw [List.take_append_drop]
    have h2 : List.Perm l (x :: (l.take r ++ l.drop (r + 1))) := by
      conv_lhs => rw [hldec]
      exact List.perm_middle
    exact h1.trans h2.symm

/-! ### Claim theorems -/

/-- C1: a freshly created store handle holds the initial value, performs
no write to the backing store before hydration (even across arbitrary
`set` calls), and after a hydration that finds a pre-seeded, non-empty,
successfully deserializing payload its value is that deserialized
payload. -/
theorem hydration_sequencing (T : Type) [DecidableEq T] (v0 : T)
    (p : String → Option T) (g : T → String) (preseed : Option String) :
    (mkInit v0 preseed).value = v0 ∧
    (mkInit v0 preseed).hydrated = false ∧
    (mkInit v0 preseed).writes = [] ∧
    (∀ args : List (SetArg T), (applySets g args (mkInit v0 preseed)).writes = []) ∧
    (∀ s v, preseed = some s → s ≠ "" → p s = some v →
      (hydrateStep v0 p g false (mkInit v0 preseed)).value = v) := by
  refine ⟨rfl, rfl, rfl, ?_, ?_⟩
  · intro args
    exact (applySets_unhydrated g args (mkInit v0 preseed) rfl).2
  · intro s v hps hs hp
    subst hps
    simp [hydrateStep, saveEffect, mkInit, hs, hp]

/-- Witness for C1 at a concrete string-valued store. -/
theorem hydration_sequencing_witness :
    (applySets sampleSer [SetArg.literal "z"] (mkInit "init0" (some "stored"))).writes
        = [] ∧
    (hydrateStep "init0" sampleParseOne sampleSer false
        (mkInit "init0" (some "stored"))).value = "forty-two" := by
  have h := hydration_sequencing String "init0" sampleParseOne sampleSer (some "stored")
  exact ⟨h.2.2.2.1 [SetArg.literal "z"],
    h.2.2.2.2 "stored" "forty-two" rfl (by decide) (by simp [sampleParseOne])⟩

/-- C5 counterexample: after hydration, a `set` whose value is identical
to the current in-memory value does not re-run the persistence effect, so
no write occurs — the state is completely unchanged and the write log
still holds only the single post-hydration write. -/
theorem set_same_value_no_write :
    hydratedSys.hydrated = true ∧
    setStep sampleSer (SetArg.literal "initial") hydratedSys = hydratedSys ∧
    (setStep sampleSer (SetArg.literal "initial") hydratedSys).writes
        = ["initial"] :=
  ⟨rfl, rfl, rfl⟩

/-- C5 amended: once hydrated, a `set` resolving to a value different from
the current one serializes and writes the new value; a `set` resolving to
the identical value leaves the whole state (write log included)
unchanged. -/
theorem set_write_iff_changed (T : Type) [DecidableEq T] (g : T → String)
    (st : Sys T) (arg : SetArg T) :
    (st.hydrated = true → applySet st.value arg ≠ st.value →
      (setStep g arg st).writes = st.writes ++ [g (applySet st.value arg)] ∧
      (setStep g arg st).stored = some (g (applySet st.value arg)) ∧
      (setStep g arg st).value = applySet st.value arg) ∧
    (applySet st.value arg = st.value → setStep g arg st = st) := by
  constructor
  · intro hh hne
    simp [setStep, saveEffect, hne, hh]
  · intro he
    simp [setStep, he]

/-- Witness for the amended C5 at a concrete store. -/
theorem set_write_iff_changed_witness :
    (setStep sampleSer (SetArg.literal "x") hydratedSys).writes
        = ["initial", "x"] := by
  have h := (set_write_iff_changed String sampleSer hydratedSys
    (SetArg.literal "x")).1 rfl (by decide)
  simpa using h.1

/-- C6: `addTodo` is a no-op when the trimmed text is empty; otherwise it
appends exactly one record — trimmed text, `completed = false`,
`createdAt` the creation time, the freshly generated id — at the end,
preserving all existing records and their order. -/
theorem append_spec (todos : List Todo) (text fid : String) (now : Nat) :
    (trimJS text = "" → addTodo todos text fid now = todos) ∧
    (trimJS text ≠ "" →
      addTodo todos text fid now
          = todos ++ [⟨fid, trimJS text, false, .date now⟩] ∧
      (addTodo todos text fid now).length = todos.length + 1 ∧
      (addTodo todos text fid now).take todos.length = todos ∧
      (addTodo todos text fid now).getLast?
          = some ⟨fid, trimJS text, false, .date now⟩) := by
  constructor
  · intro h
    simp [addTodo, h]
  · intro h
    refine ⟨by simp [addTodo, h], by simp [addTodo, h], ?_, ?_⟩
    · simp only [addTodo, if_neg h]
      exact List.take_left todos _
    · simp only [addTodo, if_neg h]
      exact List.getLast?_concat todos

/-- Witness for C6: a blank input and a padded non-blank input. -/
theorem append_spec_witness :
    addTodo [sampleA] "   " "id9" 3 = [sampleA] ∧
    addTodo [sampleA] " hi " "id9" 3 = [sampleA, ⟨"id9", "hi", false, .date 3⟩] := by
  refine ⟨(append_spec [sampleA] "   " "id9" 3).1 (by decide), ?_⟩
  have h := ((append_spec [sampleA] " hi " "id9" 3).2 (by decide)).1
  rw [h]
  decide

/-- C7: `toggleTodo` keeps the length, pointwise flips `completed` exactly
on the records whose id matches while returning every other record
unchanged in place, is an involution, and is a no-op when the id is
absent. -/
theorem toggle_spec (todos : List Todo) (id : String) :
    (toggleTodo todos id).length = todos.length ∧
    (∀ i : Nat, (toggleTodo todos id)[i]? = (todos[i]?).map fun t =>
      if t.id = id then { t with completed := !t.completed } else t) ∧
    toggleTodo (toggleTodo todos id) id = todos ∧
    ((∀ t ∈ todos, t.id ≠ id) → toggleTodo todos id = todos) := by
  refine ⟨by simp [toggleTodo], ?_, ?_, ?_⟩
  · intro i
    simp [toggleTodo]
  · induction todos with
    | nil => rfl
    | cons t ts ih =>
      have hf : ∀ u : Todo,
          (if (if u.id = id then { u with completed := !u.completed } else u).id = id
           then { (if u.id = id then { u with completed := !u.completed } else u) with
                    completed := !(if u.id = id then { u with completed := !u.completed }
                      else u).completed }
           else if u.id = id then { u with completed := !u.completed } else u) = u := by
        intro u
        by_cases h : u.id = id
        · have h2 : ({ u with completed := !u.completed } : Todo).id = id := h
          rw [if_pos h, if_pos h2]
          cases u
          simp
        · rw [if_neg h, if_neg h]
      simp only [toggleTodo, List.map_cons] at ih ⊢
      rw [ih]
      exact congrArg (· :: ts) (hf t)
  · intro h
    induction todos with
    | nil => rfl
    | cons t ts ih =>
      have ht : t.id ≠ id := h t (by simp)
      simp only [toggleTodo, List.map_cons, if_neg ht] at ih ⊢
      rw [ih fun u hu => h u (by simp [hu])]

/-- Witness for C7: toggling an absent id on a concrete list. -/
theorem toggle_spec_witness :
    toggleTodo [sampleA, sampleB] "zz" = [sampleA, sampleB] :=
  (toggle_spec [sampleA, sampleB] "zz").2.2.2 (by decide)

/-- C9: completing the hydration read always appends exactly one write of
the then-current value, marks the store hydrated, and in particular with
an absent backing value the initial default itself is written right after
hydration with no `set` call having occurred. -/
theorem hydration_writes_current_value (T : Type) (v0 : T)
    (p : String → Option T) (g : T → String) (rt : Bool) (st : Sys T) :
    (hydrateStep v0 p g rt st).writes
        = st.writes ++ [g (hydrateStep v0 p g rt st).value] ∧
    (hydrateStep v0 p g rt st).hydrated = true ∧
    (hydrateStep v0 p g false (mkInit v0 none)).value = v0 ∧
    (hydrateStep v0 p g false (mkInit v0 none)).writes = [g v0] := by
  refine ⟨?_, ?_, ?_, ?_⟩
  · unfold hydrateStep saveEffect
    split
    · simp
    · split
      · simp
      · split
        · simp
        · split <;> simp
  · unfold hydrateStep saveEffect
    split
    · simp
    · split
      · simp
      · split
        · simp
        · split <;> simp
  · simp [hydrateStep, saveEffect, mkInit]
  · simp [hydrateStep, saveEffect, mkInit]

/-- C10: on the hydration read, an empty stored string is treated as
absent (value resolves to the initial value, no warning); any non-empty
stored string accepted by the deserializer becomes the in-memory value,
whatever it is; and a warning is logged exactly when the read throws or a
non-empty payload fails to parse. -/
theorem hydration_read_handling (T : Type) (v0 : T) (p : String → Option T)
    (g : T → String) (rt : Bool) (s : String) :
    ((hydrateStep v0 p g false (mkInit v0 (some ""))).value = v0 ∧
      (hydrateStep v0 p g false (mkInit v0 (some ""))).warns = 0) ∧
    (∀ v, s ≠ "" → p s = some v →
      (hydrateStep v0 p g false (mkInit v0 (some s))).value = v) ∧
    ((hydrateStep v0 p g rt (mkInit v0 (some s))).warns ≠ 0 ↔
      rt = true ∨ (s ≠ "" ∧ p s = none)) ∧
    ((hydrateStep v0 p g rt (mkInit v0 none)).warns ≠ 0 ↔ rt = true) := by
  refine ⟨⟨by simp [hydrateStep, saveEffect, mkInit], by
    simp [hydrateStep, saveEffect, mkInit]⟩, ?_, ?_, ?_⟩
  · intro v hs hp
    simp [hydrateStep, saveEffect, mkInit, hs, hp]
  · cases rt with
    | true => simp [hydrateStep, saveEffect, mkInit]
    | false =>
      by_cases hs : s = ""
      · subst hs
        simp [hydrateStep, saveEffect, mkInit]
      · cases hp : p s with
        | none => simp [hydrateStep, saveEffect, mkInit, hs, hp]
        | some v => simp [hydrateStep, saveEffect, mkInit, hs, hp]
  · cases rt with
    | true => simp [hydrateStep, saveEffect, mkInit]
    | false => simp [hydrateStep, saveEffect, mkInit]

/-- Witness for C10: a payload the sample deserializer accepts becomes the
value even though it has no relation to the initial value's shape. -/
theorem hydration_read_handling_witness :
    (hydrateStep "init0" sampleParseOne sampleSer false
        (mkInit "init0" (some "stored"))).value = "forty-two" :=
  (hydration_read_handling String "init0" sampleParseOne sampleSer false
    "stored").2.1 "forty-two" (by decide) (by simp [sampleParseOne])

/-- C2 counterexample: with a source id absent from the list and a present
target id, the drag handler is not a no-op — `findIndex` returns `-1`,
which `arrayMove` treats as the last position, so the last record is
relocated to the target's position. -/
theorem move_missing_id_not_noop :
    moveOp [sampleA, sampleB, sampleC] "x" "a" = [sampleC, sampleA, sampleB] ∧
    moveOp [sampleA, sampleB, sampleC] "x" "a" ≠ [sampleA, sampleB, sampleC] := by
  constructor <;> decide

/-- C2 amended: when both ids resolve to positions and the positions
differ, `move` relocates the source record to the target's former
position (remove at the source index, re-insert at the target index,
records themselves unchanged); when the two ids are equal it is a no-op;
and when both ids are missing the list also stays unchanged — but a
single missing id is not a no-op (see the counterexample). -/
theorem move_semantics (items : List Todo) (s t : String) :
    (∀ (i j : Nat) (x : Todo),
      findIndexJS (fun r => r.id == s) items = (i : Int) →
      findIndexJS (fun r => r.id == t) items = (j : Int) →
      i ≠ j → items[i]? = some x →
      moveOp items s t = insertAt (items.take i ++ items.drop (i + 1)) j x) ∧
    moveOp items s s = items ∧
    (findIndexJS (fun r => r.id == s) items = -1 →
      findIndexJS (fun r => r.id == t) items = -1 →
      moveOp items s t = items) := by
  refine ⟨?_, ?_, ?_⟩
  · intro i j x hi hj hij hx
    have hst : s ≠ t := by
      intro he
      subst he
      rw [hi] at hj
      exact hij (by omega)
    have hjlt : j < items.length := findIndexJS_nat_lt _ items j hj
    simp only [moveOp, applyDrag, handleDragEnd, if_pos hst, applySet]
    rw [hi, hj]
    exact arrayMove_relocate items i j x hx hjlt
  · simp [moveOp, applyDrag, handleDragEnd]
  · intro h1 h2
    by_cases hst : s = t
    · subst hst
      simp [moveOp, applyDrag, handleDragEnd]
    · simp only [moveOp, applyDrag, handleDragEnd, if_pos hst, applySet]
      rw [h1, h2]
      exact arrayMove_both_missing items

/-- Witness for the amended C2: an in-range relocation and a
both-ids-missing no-op on a concrete list. -/
theorem move_semantics_witness :
    moveOp [sampleA, sampleB, sampleC] "c" "a"
        = insertAt ([sampleA, sampleB, sampleC].take 2 ++
            [sampleA, sampleB, sampleC].drop 3) 0 sampleC ∧
    moveOp [sampleA, sampleB, sampleC] "x" "y" = [sampleA, sampleB, sampleC] :=
  ⟨(move_semantics [sampleA, sampleB, sampleC] "c" "a").1 2 0 sampleC
      (by decide) (by decide) (by decide) (by decide),
    (move_semantics [sampleA, sampleB, sampleC] "x" "y").2.2
      (by decide) (by decide)⟩

/-- One record's JSON value survives a serialize/parse cycle exactly as
`isoTodo` describes. -/
theorem jsonRoundTrip_encodeTodo (t : Todo) :
    jsonRoundTrip (encodeTodo t) = encodeTodo (isoTodo t) := by
  cases h : t.createdAt with
  | date m =>
    simp [encodeTodo, isoTodo, jsonRoundTrip, jsonRoundTripFields, h]
  | str s =>
    simp [encodeTodo, isoTodo, jsonRoundTrip, jsonRoundTripFields, h]

/-- C3 counterexample: serializing and re-parsing a list whose record was
created in memory (`createdAt` a `Date`) does not reproduce the same
runtime value — the `createdAt` comes back as a string. -/
theorem roundtrip_not_identity :
    jsonRoundTrip (encodeTodos [sampleA]) ≠ encodeTodos [sampleA] := by
  simp [encodeTodos, encodeTodo, jsonRoundTrip, jsonRoundTripList,
    jsonRoundTripFields, sampleA]

/-- C3 amended: the serialize/parse round trip reproduces each record's
id, text and completed flag exactly, and maps a `Date`-valued `createdAt`
to its ISO-8601 string rendering (JSON parsing performs no `Date`
revival); i.e. the reloaded list is the original mapped through
`isoTodo`. -/
theorem roundtrip_spec (l : List Todo) :
    jsonRoundTrip (encodeTodos l) = encodeTodos (l.map isoTodo) ∧
    (l.map isoTodo).map Todo.id = l.map Todo.id ∧
    (l.map isoTodo).map Todo.text = l.map Todo.text ∧
    (l.map isoTodo).map Todo.completed = l.map Todo.completed := by
  refine ⟨?_, isoTodo_map_id l, ?_, ?_⟩
  · induction l with
    | nil => rfl
    | cons t ts ih =>
      simp only [encodeTodos, List.map_cons, jsonRoundTrip, jsonRoundTripList,
        JVal.arr.injEq, List.cons.injEq] at ih ⊢
      exact ⟨jsonRoundTrip_encodeTodo t, ih⟩
  · induction l with
    | nil => rfl
    | cons t ts ih =>
      simp only [List.map_cons, List.cons.injEq]
      exact ⟨rfl, ih⟩
  · induction l with
    | nil => rfl
    | cons t ts ih =>
      simp only [List.map_cons, List.cons.injEq]
      exact ⟨rfl, ih⟩

/-- C4 counterexample: `addTodo` passes a *literal* `set` argument built
from the component's render snapshot, not an updater of the current
value; two appends issued against the same (stale) snapshot therefore
lose the first one instead of composing in sequence. -/
theorem stale_snapshot_loses_update :
    addTodoArg [] "a" "id1" 0
        = some (SetArg.literal [⟨"id1", "a", false, .date 0⟩]) ∧
    applySet [⟨"id1", "a", false, .date 0⟩]
        ((addTodoArg [] "b" "id2" 0).getD (SetArg.literal []))
        = [⟨"id2", "b", false, .date 0⟩] :=
  ⟨rfl, rfl⟩

/-- C4 amended: only the drag handler passes an updater, which does
receive the current in-memory value; append, toggle and remove pass
literals computed from the render snapshot, so they apply to the current
value only when that snapshot is the current value. -/
theorem set_argument_forms (current : List Todo) (a o text fid tid rid : String)
    (now : Nat) :
    (∀ arg, handleDragEnd a (some o) = some arg →
      applySet current arg
        = arrayMove current (findIndexJS (fun r => r.id == a) current)
            (findIndexJS (fun r => r.id == o) current)) ∧
    applySet current ((addTodoArg current text fid now).getD (SetArg.literal current))
        = addTodo current text fid now ∧
    applySet current (toggleTodoArg current tid) = toggleTodo current tid ∧
    applySet current (deleteTodoArg current rid) = deleteTodo current rid := by
  refine ⟨?_, ?_, rfl, rfl⟩
  · intro arg harg
    by_cases hao : a ≠ o
    · simp only [handleDragEnd, if_pos hao, Option.some.injEq] at harg
      rw [← harg]
      rfl
    · simp only [handleDragEnd, if_neg hao] at harg
      cases harg
  · by_cases h : trimJS text = ""
    · simp [addTodoArg, addTodo, applySet, h]
    · simp [addTodoArg, addTodo, applySet, h]

set_option maxHeartbeats 1000000 in
/-- Witness for the amended C4: a concrete drag event's updater applied
to the current list performs the relocation on that current list. -/
theorem set_argument_forms_witness :
    applySet [sampleA, sampleB, sampleC]
        ((handleDragEnd "c" (some "a")).getD (SetArg.literal []))
        = [sampleC, sampleA, sampleB] := by
  have h2 := (set_argument_forms [sampleA, sampleB, sampleC] "c" "a" "t" "f"
      "g" "h" 0).1
    (SetArg.updater fun items : List Todo => arrayMove items
      (findIndexJS (fun r : Todo => r.id == "c") items)
      (findIndexJS (fun r : Todo => r.id == "a") items)) rfl
  rw [show handleDragEnd "c" (some "a")
      = some (SetArg.updater fun items : List Todo => arrayMove items
          (findIndexJS (fun r : Todo => r.id == "c") items)
          (findIndexJS (fun r : Todo => r.id == "a") items)) from rfl,
    Option.getD_some, h2]
  decide

/-- C8: in every state the application itself can reach — starting empty,
applying append with non-colliding fresh ids, toggle, remove and drag
events, and reloading the store's own serialized payload — the record ids
are pairwise distinct. -/
theorem ids_nodup_of_reachable (l : List Todo) (h : Reachable l) :
    (l.map Todo.id).Nodup := by
  induction h with
  | init => simp
  | @add l text fid now hr hfresh ih =>
    by_cases he : trimJS text = ""
    · rw [show addTodo l text fid now = l from by simp [addTodo, he]]
      exact ih
    · rw [show addTodo l text fid now
          = l ++ [⟨fid, trimJS text, false, .date now⟩] from by
        simp [addTodo, he]]
      simp only [List.map_append, List.map_cons, List.map_nil]
      rw [List.nodup_append]
      refine ⟨ih, by simp, ?_⟩
      intro a ha hb
      simp only [List.mem_singleton] at hb
      subst hb
      obtain ⟨t, ht, hid⟩ := List.mem_map.mp ha
      exact hfresh t ht hid
  | @tog l id hr ih =>
    rw [toggleTodo_map_id]
    exact ih
  | @del l id hr ih =>
    have hsub : List.Sublist (deleteTodo l id) l := List.filter_sublist l
    exact ih.sublist (hsub.map Todo.id)
  | @drag l a o hr ih =>
    unfold applyDrag
    cases o with
    | none => exact ih
    | some oid =>
      by_cases hao : a ≠ oid
      · simp only [handleDragEnd, if_pos hao, applySet]
        rcases arrayMove_perm_or_sublist l
            (findIndexJS (fun r => r.id == a) l)
            (findIndexJS (fun r => r.id == oid) l) with hp | hs
        · exact ((hp.map Todo.id).nodup_iff).mpr ih
        · exact ih.sublist (hs.map Todo.id)
      · simp only [handleDragEnd, if_neg hao]
        exact ih
  | @rehydrate l hr ih =>
    rw [isoTodo_map_id]
    exact ih

/-- Witness for C8: a concrete reachable state with a discharged
freshness hypothesis. -/
theorem ids_nodup_of_reachable_witness :
    ((addTodo [] "Buy milk" "id1" 0).map Todo.id).Nodup :=
  ids_nodup_of_reachable _ (Reachable.add Reachable.init (by simp))

end TodoApp
